import Mathlib

/-!
Verification of the `subnamd` command-line tool (file `src/subnamd/subnamd.py`)
against its natural-language specification.

The tool has four pieces of logic, each shallowly embedded below:

* `WallTimeParamType.convert` — a regex-based validator for wall-time strings;
  modelled by `wallTimeMatch` / `WallTimeParamType_convert`.
* `_path_relative_to_root` / `_jobname` — an upward filesystem walk deriving a
  job name; paths are modelled as lists of components (the leading "/" of an
  absolute POSIX path is dropped; the filesystem root is `[]`), and the
  filesystem itself by an oracle `g : List String → Bool` telling which
  directories contain a `.git` subdirectory, plus a `home` path.
* `_prep` — script generation; modelled by `scriptLines` (the exact lines the
  Python code writes) and `prepRun` (the sequence of file-write events,
  including the abort behaviour when `_jobname` raises).
* `_submit` — sequential submission through an external `sbatch` command;
  the external world is an oracle `o : Nat → Except String String` giving, for
  the k-th subprocess invocation, either its captured standard output (`ok`)
  or the textual form of the exception raised (`error`, covering nonzero exit
  and I/O failure).  `sys.exit msg` is modelled as field `exit = some msg`
  of the result (a non-zero process exit carrying the message).
-/

/-! ### Wall-time validator

The Python code compiles the verbose regex

  `^(?P<days>\\d+)??(-?(?P<hours>\\d+):?)??(?P<minutes>\\d+)?(:(?P<seconds>\\d+))?$`

and accepts exactly the strings `pattern.match` matches.  Three points of
Python regex semantics matter:

* whether a regex matches a string does not depend on greediness
  annotations, so the pattern's body is the concatenation of four optional
  pieces `\\d+`, `-?\\d+:?`, `\\d+`, `:\\d+`;
* `\\d` matches any Unicode decimal digit (category Nd), a set that depends
  on the interpreter's Unicode tables, so the embedding takes the digit set
  as a parameter `dig : Char → Bool`.  Every version of Nd contains the
  ASCII digits and contains none of `:`, `-`, `\\n`; the theorems below
  assume no more than the latter, and the congruence lemmas show that on
  ASCII-only strings any such instantiation evaluates like `Char.isDigit`;
* the pattern is not compiled with `re.MULTILINE`, so `$` matches at the
  end of the string and also just before a newline that ends the string.
  No piece of the body can match `\\n`, so `pattern.match` succeeds exactly
  when the body matches the whole string or the whole string less a single
  trailing newline.

`wallTimeBody` decides the body language by enumerating split points. -/

def digits1 (dig : Char → Bool) (cs : List Char) : Bool :=
  !cs.isEmpty && cs.all dig

def stripDash (cs : List Char) : List Char :=
  if cs.head? = some '-' then cs.tail else cs

def stripColonEnd (cs : List Char) : List Char :=
  if cs.getLast? = some ':' then cs.dropLast else cs

/-- The inner hours group `-?\\d+:?` of the wall-time regex. -/
def hoursTok (dig : Char → Bool) (cs : List Char) : Bool :=
  digits1 dig (stripColonEnd (stripDash cs))

/-- The seconds group `:\\d+` of the wall-time regex. -/
def secsTok (dig : Char → Bool) (cs : List Char) : Bool :=
  if cs.head? = some ':' then digits1 dig cs.tail else false

/-- An optional piece: the empty string, or a string matching `f`. -/
def optPart (f : List Char → Bool) (cs : List Char) : Bool :=
  cs.isEmpty || f cs

/-- All ways to split a character list into two contiguous pieces. -/
def splitsAt (cs : List Char) : List (List Char × List Char) :=
  (List.range (cs.length + 1)).map (fun i => (cs.take i, cs.drop i))

/-- The body language of the wall-time regex
`(\\d+)??(-?(\\d+):?)??(\\d+)?(:(\\d+))?` from `WallTimeParamType.convert`. -/
def wallTimeBody (dig : Char → Bool) (cs : List Char) : Bool :=
  (splitsAt cs).any fun dq =>
    optPart (digits1 dig) dq.1 &&
    ((splitsAt dq.2).any fun hq =>
      optPart (hoursTok dig) hq.1 &&
      ((splitsAt hq.2).any fun mq =>
        optPart (digits1 dig) mq.1 && optPart (secsTok dig) mq.2))

/-- `pattern.match(value)`: the anchored body, with `$` also matching just
before a newline that ends the string. -/
def wallTimeMatch (dig : Char → Bool) (s : String) : Bool :=
  wallTimeBody dig s.data ||
    (s.data.getLast? == some '\n' && wallTimeBody dig s.data.dropLast)

/-- `WallTimeParamType.convert`: return the value on a regex match, otherwise
call `self.fail` (modelled as `Except.error` carrying the message built from
the offending value). -/
def WallTimeParamType_convert (dig : Char → Bool) (value : String) :
    Except String String :=
  if wallTimeMatch dig value then Except.ok value
  else Except.error (value ++ " is not a valid walltime")

/-- Modelled from the spec's words, for comparison with the code: the hours
group of the grammar `[days][[-]hours:][minutes][:seconds]`, read literally —
an optional `-`, digits, and a mandatory trailing `:`. -/
def hoursTokSpec (dig : Char → Bool) (cs : List Char) : Bool :=
  (stripDash cs).getLast? = some ':' && digits1 dig (stripDash cs).dropLast

/-- Modelled from the spec's words: the grammar
`[days][[-]hours:][minutes][:seconds]` with each component optional digits,
the colon after the hours component mandatory whenever hours are present,
and nothing outside the grammar (no trailing-newline tolerance, which the
spec never mentions). -/
def specWallTimeMatch (dig : Char → Bool) (s : String) : Bool :=
  (splitsAt s.data).any fun dq =>
    optPart (digits1 dig) dq.1 &&
    ((splitsAt dq.2).any fun hq =>
      optPart (hoursTokSpec dig) hq.1 &&
      ((splitsAt hq.2).any fun mq =>
        optPart (digits1 dig) mq.1 && optPart (secsTok dig) mq.2))

/-- A nonempty all-digit character list. -/
def IsDigits (dig : Char → Bool) (cs : List Char) : Prop :=
  cs ≠ [] ∧ ∀ c ∈ cs, dig c = true

/-- Optional days (or minutes) component: absent, or digits. -/
def DaysOpt (dig : Char → Bool) (cs : List Char) : Prop :=
  cs = [] ∨ IsDigits dig cs

/-- Optional hours component as the code's regex has it: absent, or an
optional `-`, digits, and an OPTIONAL trailing `:`. -/
def HoursOpt (dig : Char → Bool) (cs : List Char) : Prop :=
  cs = [] ∨ ∃ pre mid post, cs = pre ++ mid ++ post ∧
    (pre = [] ∨ pre = ['-']) ∧ IsDigits dig mid ∧ (post = [] ∨ post = [':'])

/-- Optional seconds component: absent, or a `:` followed by digits. -/
def SecsOpt (dig : Char → Bool) (cs : List Char) : Prop :=
  cs = [] ∨ ∃ mid, cs = ':' :: mid ∧ IsDigits dig mid

/-- The body grammar the regex body decides:
`[days][[-]hours[:]][minutes][:seconds]`. -/
def BodyGrammar (dig : Char → Bool) (cs : List Char) : Prop :=
  ∃ d h m t, cs = d ++ (h ++ (m ++ t)) ∧
    DaysOpt dig d ∧ HoursOpt dig h ∧ DaysOpt dig m ∧ SecsOpt dig t

/-- The language the validator actually accepts: the body grammar, possibly
followed by a single trailing newline (the `$`-before-newline tolerance). -/
def AmendedWallTimeGrammar (dig : Char → Bool) (s : String) : Prop :=
  ∃ w, (s.data = w ∨ s.data = w ++ ['\n']) ∧ BodyGrammar dig w

/-! ### Paths and job-name derivation

A path is the list of components of an absolute POSIX path, the leading "/"
dropped (`/home/user/a.conf` is `["home", "user", "a.conf"]`; the filesystem
root is `[]`).  `parentsOf` is `pathlib.Path.parents`: the immediate parent
first, then each further ancestor, ending with the root. -/

def parentsOf (p : List String) : List (List String) :=
  (List.range p.length).map (fun k => p.take (p.length - 1 - k))

/-- `pathlib.Path.name`: the final component (the root has name `""`). -/
def nameOf (p : List String) : String :=
  p.getLastD ""

/-- `name / relative` where `name` is a plain string: `pathlib` drops an empty
string, so the root's name contributes no component. -/
def joinName (n : String) (rest : List String) : List String :=
  if n = "" then rest else n :: rest

/-- The loop body of `_path_relative_to_root`, walking a list of ancestors:
the first ancestor containing `.git` (per the oracle `g`) yields
`parent.name / path.relative_to(parent)`; an ancestor equal to `home` yields
`path.relative_to(parent)`; falling off the end models the Python function
returning `None`. -/
def relRootGo (g : List String → Bool) (home : List String) (p : List String) :
    List (List String) → Option (List String)
  | [] => none
  | parent :: rest =>
    if g parent then some (joinName (nameOf parent) (p.drop parent.length))
    else if parent = home then some (p.drop parent.length)
    else relRootGo g home p rest

/-- `_path_relative_to_root`: walk `path.parents` upward. -/
def _path_relative_to_root (g : List String → Bool) (home : List String)
    (p : List String) : Option (List String) :=
  relRootGo g home p (parentsOf p)

/-- `_jobname`: `"_".join(relative.parts)`.  When `_path_relative_to_root`
returns `None` the Python code raises `AttributeError` (`None.parts`);
that is modelled by `none`. -/
def _jobname (g : List String → Bool) (home : List String)
    (p : List String) : Option String :=
  (_path_relative_to_root g home p).map (String.intercalate "_")

/-! ### `pathlib` stem / suffix / `with_suffix`

`PurePath.suffix` is `name[i:]` where `i = name.rfind('.')` when
`0 < i < len(name) - 1`, else `""`; `stem` is the complementary part.
`with_suffix(".slurm")` replaces the name by `stem + ".slurm"`. -/

/-- Index of the first `.` of a reversed name (scanning from the right). -/
def revDotIdx : List Char → Option Nat
  | [] => none
  | c :: cs => if c = '.' then some 0 else (revDotIdx cs).map (· + 1)

/-- `str.rfind('.')`: the highest index of `.`, `none` when absent. -/
def lastDotIdx (cs : List Char) : Option Nat :=
  (revDotIdx cs.reverse).map (fun j => cs.length - 1 - j)

/-- `PurePath.stem` applied to a file name. -/
def pyStem (n : String) : String :=
  match lastDotIdx n.data with
  | some i => if 0 < i ∧ i + 1 < n.data.length then ⟨n.data.take i⟩ else n
  | none => n

/-- `PurePath.suffix` applied to a file name. -/
def pySuffix (n : String) : String :=
  match lastDotIdx n.data with
  | some i => if 0 < i ∧ i + 1 < n.data.length then ⟨n.data.drop i⟩ else ""
  | none => ""

/-- `path.with_suffix(".slurm")`: same parent, name replaced by
`stem + ".slurm"`. -/
def withSlurm (p : List String) : List String :=
  p.dropLast ++ [pyStem (nameOf p) ++ ".slurm"]

/-- `str(path)` for the submit command line. -/
def render (p : List String) : String :=
  "/" ++ String.intercalate "/" p

/-! ### Script generation (`_prep`) -/

/-- The `#SBATCH --gpus=` directive written when `ngpus > 0`. -/
def gpuDirective (g : Nat) : String :=
  "#SBATCH --gpus=" ++ toString g ++ "\n"

/-- Recogniser for a GPU-count scheduler directive line. -/
def isGpuDirective (l : String) : Bool :=
  "#SBATCH --gpus=".data.isPrefixOf l.data

/-- The device-selection flag written into the engine invocation when
`ngpus > 0`. -/
def devicesFlag : String :=
  " +devices $\x7bCUDA_VISIBLE_DEVICES\x7d"

/-- The MD-engine invocation line (the three final `f.write` calls of `_prep`
produce one line of text). -/
def invocationLine (ncpus ngpus : Nat) (nm stem : String) : String :=
  "namd3 +p " ++ toString ncpus ++ " +setcpuaffinity"
    ++ (if ngpus > 0 then devicesFlag else "")
    ++ " " ++ nm ++ " > " ++ stem ++ ".out\n"

/-- The exact sequence of lines `_prep` writes for one config, in the order
the Python code emits them. -/
def scriptLines (jobname wall : String) (ncpus ngpus : Nat)
    (nm stem : String) : List String :=
  ["#!/bin/bash\n",
   "\n",
   "#SBATCH --job-name=" ++ jobname ++ "\n",
   "#SBATCH --time=" ++ wall ++ "\n",
   "#SBATCH --nodes=1\n",
   "#SBATCH --ntasks-per-node=" ++ toString ncpus ++ "\n"]
  ++ (if ngpus > 0 then [gpuDirective ngpus] else [])
  ++ ["\n", "module purge\n", "module load namd3\n", "\n"]
  ++ [invocationLine ncpus ngpus nm stem]

/-- The script `_prep` produces for one config path, or `none` when
`_jobname` raises (no ancestor with `.git` and no ancestor equal to home):
the `AttributeError` escapes before the script body is written. -/
def prepScript (g : List String → Bool) (home : List String)
    (wall : String) (ncpus ngpus : Nat) (p : List String) :
    Option (List String) :=
  (_jobname g home p).map fun jn =>
    scriptLines jn wall ncpus ngpus (nameOf p) (pyStem (nameOf p))

/-! ### Submission driver (`_submit`) -/

/-- `str.split()` with no argument: split on runs of whitespace, no empty
tokens.  The whitespace set is Python's ASCII whitespace. -/
def pyWhitespace (c : Char) : Bool :=
  c = ' ' || c = '\t' || c = '\n' || c = '\r' || c = '\x0b' || c = '\x0c'

/-- Split a character list into its maximal runs of non-whitespace
characters; the first argument accumulates the current token reversed. -/
def pyTokens : List Char → List Char → List String
  | cur, [] => if cur.isEmpty then [] else [⟨cur.reverse⟩]
  | cur, c :: cs =>
    if pyWhitespace c then
      (if cur.isEmpty then pyTokens [] cs else ⟨cur.reverse⟩ :: pyTokens [] cs)
    else pyTokens (c :: cur) cs

/-- `stdout.split()[-1]`: the last whitespace-delimited token; `none` models
the `IndexError` raised on empty or whitespace-only output. -/
def lastTokenOf (s : String) : Option String :=
  (pyTokens [] s.data).getLast?

/-- The message of the `IndexError` that `stdout.split()[-1]` raises on a
token-free output; `sys.exit(f"{e}")` prints exactly this. -/
def indexErrorMsg : String :=
  "list index out of range"

/-- The dependency clause `f"--dependency=afterok:{after}"`. -/
def depClause (a : String) : String :=
  "--dependency=afterok:" ++ a

/-- The optional dependency argument appended to the command line when
`after is not None`. -/
def afterArgs : Option String → List String
  | some a => [depClause a]
  | none => []

/-- Result of `_submit`: the command lines actually handed to
`subprocess.run`, in order, and `exit = some msg` when the run ended in
`sys.exit(msg)` (a nonzero process exit), `none` when it completed. -/
structure SubmitRes where
  invocations : List (List String)
  exit : Option String
deriving DecidableEq

/-- `_submit`: submit each config's script in sequence.  `o k` is the outcome
of the k-th subprocess invocation; `after` is the dependency id in effect
(the CLI's `--after`, stringified, at first).  A failing invocation — or an
output with no token to parse — lands in the `except` block and exits. -/
def _submit (o : Nat → Except String String) (chain : Bool) :
    Nat → Option String → List (List String) → SubmitRes
  | _, _, [] => ⟨[], none⟩
  | k, after, c :: rest =>
    let cmdline := ["sbatch", render (withSlurm c)] ++ afterArgs after
    match o k with
    | Except.error e => ⟨[cmdline], some e⟩
    | Except.ok out =>
      match lastTokenOf out with
      | none => ⟨[cmdline], some indexErrorMsg⟩
      | some jid =>
        let r := _submit o chain (k + 1) (if chain then some jid else after) rest
        ⟨cmdline :: r.invocations, r.exit⟩

/-! ### The entry point (`main`) as an event trace -/

/-- An observable filesystem / process effect of a run. -/
inductive Event where
  | write : List String → List String → Event
  | invoke : List String → Event
deriving DecidableEq

/-- Whether an event is a script write (as opposed to an invocation of the
external submit command). -/
def Event.isWrite : Event → Bool
  | Event.write _ _ => true
  | Event.invoke _ => false

/-- The writes `_prep` performs, one `.slurm` file per config, and whether it
completed.  When `_jobname` raises, `open(..., "w")` has already truncated
the target file but nothing has been written to it (the `writelines`
argument list is still being evaluated), and the exception aborts the rest:
modelled as a `write` of no lines and a `false` completion flag. -/
def prepRun (g : List String → Bool) (home : List String) (wall : String)
    (ncpus ngpus : Nat) : List (List String) → List Event × Bool
  | [] => ([], true)
  | c :: rest =>
    match _jobname g home c with
    | none => ([Event.write (withSlurm c) []], false)
    | some jn =>
      let r := prepRun g home wall ncpus ngpus rest
      (Event.write (withSlurm c)
        (scriptLines jn wall ncpus ngpus (nameOf c) (pyStem (nameOf c))) :: r.1,
       r.2)

/-- `main` as the sequence of effects it performs: `_prep` over all configs,
then — only when `_prep` completed and `dry_run` is off — the `_submit`
invocations. -/
def mainRun (g : List String → Bool) (home : List String) (wall : String)
    (ncpus ngpus : Nat) (o : Nat → Except String String)
    (after : Option String) (chain dry_run : Bool)
    (configs : List (List String)) : List Event :=
  let p := prepRun g home wall ncpus ngpus configs
  p.1 ++
    (if p.2 && !dry_run then (_submit o chain 0 after configs).invocations.map Event.invoke
     else [])

/-! ### Concrete inputs used by the witness theorems -/

def pathA : List String := ["home", "user", "proj", "a.conf"]

def pathB : List String := ["home", "user", "proj", "b.conf"]

def pathC : List String := ["home", "user", "proj", "c.conf"]

/-- A scheduler that answers every submission with a fresh job id. -/
def oracleChain : Nat → Except String String :=
  fun k => Except.ok ("Submitted batch job " ++ toString (100 + k))

/-- A scheduler whose second invocation fails. -/
def oracleFail : Nat → Except String String :=
  fun k => if k = 1 then Except.error "sbatch failed" else Except.ok "Submitted batch job 7"

/-- A scheduler whose second invocation succeeds with empty output. -/
def oracleEmpty : Nat → Except String String :=
  fun k => if k = 1 then Except.ok "" else Except.ok "Submitted batch job 7"

/-- A filesystem with a `.git` marker exactly at `/home/user/proj`. -/
def gitAtProj : List String → Bool :=
  fun q => q == ["home", "user", "proj"]

/-- A filesystem with no `.git` marker anywhere. -/
def gitNowhere : List String → Bool :=
  fun _ => false

def homeUser : List String := ["home", "user"]

/-! ### Lemmas about the submission driver -/

/-- If the first `k` invocations succeed and their outputs parse, `_submit`
reaches the k-th config: its result is `k` command lines followed by the
result of submitting the remaining configs with some dependency id. -/
theorem submit_reach (o : Nat → Except String String) (chain : Bool) :
    ∀ (configs : List (List String)) (k n : Nat) (after : Option String),
      k < configs.length →
      (∀ j, j < k → ∃ s t, o (n + j) = Except.ok s ∧ lastTokenOf s = some t) →
      ∃ pre after2, pre.length = k ∧
        _submit o chain n after configs =
          ⟨pre ++ (_submit o chain (n + k) after2 (configs.drop k)).invocations,
           (_submit o chain (n + k) after2 (configs.drop k)).exit⟩ := by
  intro configs
  induction configs with
  | nil => intro k n after hk _; simp at hk
  | cons c rest ih =>
    intro k n after hk hok
    match k with
    | 0 => exact ⟨[], after, rfl, by simp⟩
    | k + 1 =>
      obtain ⟨s, t, hs, ht⟩ := hok 0 (Nat.succ_pos k)
      simp only [Nat.add_zero] at hs
      obtain ⟨pre, after2, hlen, heq⟩ :=
        ih k (n + 1) (if chain then some t else after)
          (by simpa using hk)
          (fun j hj => by
            have := hok (j + 1) (by omega)
            simpa [Nat.add_assoc, Nat.add_comm 1 j] using this)
      refine ⟨(["sbatch", render (withSlurm c)] ++ afterArgs after) :: pre, after2,
        by simp [hlen], ?_⟩
      simp only [_submit, hs, ht]
      rw [heq]
      simp [Nat.add_assoc, Nat.add_comm 1 k]

/-! ### Claim theorems: submission driver -/

/-- C1: for three configs submitted with chaining enabled, when each
submission succeeds, the second submission's command line carries a
dependency clause with the job id parsed as the last whitespace-delimited
token of the first submission's standard output, and the third carries the id
parsed the same way from the second's output. -/
theorem c1_chain_dependency (o : Nat → Except String String)
    (p1 p2 p3 : List String) (a0 : Option String) (s0 s1 s2 t0 t1 : String)
    (h0 : o 0 = Except.ok s0) (h1 : o 1 = Except.ok s1) (h2 : o 2 = Except.ok s2)
    (ht0 : lastTokenOf s0 = some t0) (ht1 : lastTokenOf s1 = some t1) :
    (_submit o true 0 a0 [p1, p2, p3]).invocations =
      [["sbatch", render (withSlurm p1)] ++ afterArgs a0,
       ["sbatch", render (withSlurm p2), depClause t0],
       ["sbatch", render (withSlurm p3), depClause t1]] := by
  cases hlt : lastTokenOf s2 with
  | none => simp [_submit, h0, h1, h2, ht0, ht1, hlt, afterArgs]
  | some t2 => simp [_submit, h0, h1, h2, ht0, ht1, hlt, afterArgs]

/-- C1 witness: a three-config chained run against a concrete scheduler. -/
theorem c1_chain_dependency_witness :
    (_submit oracleChain true 0 none [pathA, pathB, pathC]).invocations =
      [["sbatch", "/home/user/proj/a.slurm"],
       ["sbatch", "/home/user/proj/b.slurm", "--dependency=afterok:100"],
       ["sbatch", "/home/user/proj/c.slurm", "--dependency=afterok:101"]] := by
  rw [c1_chain_dependency oracleChain pathA pathB pathC none
    "Submitted batch job 100" "Submitted batch job 101" "Submitted batch job 102"
    "100" "101" rfl rfl rfl (by decide) (by decide)]
  decide

/-- C2: if the submit command fails on the k-th config (after successful,
parseable submissions before it), the run ends in `sys.exit` with the error's
message, exactly the first k+1 configs were handed to the scheduler — none
after the failing one — and the earlier submissions remain in place. -/
theorem c2_failure_propagation (o : Nat → Except String String) (chain : Bool)
    (a0 : Option String) (configs : List (List String)) (k : Nat) (e : String)
    (hk : k < configs.length)
    (hok : ∀ j, j < k → ∃ s t, o j = Except.ok s ∧ lastTokenOf s = some t)
    (herr : o k = Except.error e) :
    (_submit o chain 0 a0 configs).exit = some e ∧
    (_submit o chain 0 a0 configs).invocations.length = k + 1 := by
  obtain ⟨pre, after2, hlen, heq⟩ :=
    submit_reach o chain configs k 0 a0 hk (by simpa using hok)
  obtain ⟨c, rest, hdrop⟩ : ∃ c rest, configs.drop k = c :: rest := by
    cases hd : configs.drop k with
    | nil => exact absurd (List.drop_eq_nil_iff.mp hd) (by omega)
    | cons c rest => exact ⟨c, rest, rfl⟩
  rw [heq, hdrop]
  simp only [Nat.zero_add] at *
  rw [hdrop] at heq
  simp [_submit, herr, hlen]

/-- C2 witness: three configs, the second submission fails. -/
theorem c2_failure_propagation_witness :
    (_submit oracleFail false 0 none [pathA, pathB, pathC]).exit = some "sbatch failed" ∧
    (_submit oracleFail false 0 none [pathA, pathB, pathC]).invocations.length = 2 :=
  c2_failure_propagation oracleFail false none [pathA, pathB, pathC] 1 "sbatch failed"
    (by decide)
    (fun j hj => by
      interval_cases j
      exact ⟨"Submitted batch job 7", "7", rfl, by decide⟩)
    rfl

/-- C9: with chaining disabled and an initial `--after` id, every submission's
command line — not only the first — carries the dependency clause for that
id; the id in effect is never overwritten. -/
theorem c9_after_no_chain (o : Nat → Except String String) (a : String) :
    ∀ (configs : List (List String)) (n : Nat) (cl : List String),
      cl ∈ (_submit o false n (some a) configs).invocations →
      depClause a ∈ cl := by
  intro configs
  induction configs with
  | nil => intro n cl h; simp [_submit] at h
  | cons c rest ih =>
    intro n cl h
    cases ho : o n with
    | error e =>
      simp [_submit, ho, afterArgs] at h
      simp [h]
    | ok s =>
      cases hlt : lastTokenOf s with
      | none =>
        simp [_submit, ho, hlt, afterArgs] at h
        simp [h]
      | some t =>
        simp only [_submit, ho, hlt, if_false, Bool.false_eq_true, List.mem_cons] at h
        rcases h with h | h
        · simp [h, afterArgs]
        · exact ih (n + 1) cl h

/-- C9 witness: the second of two unchained submissions still carries the
initial dependency clause. -/
theorem c9_after_no_chain_witness :
    depClause "42" ∈ ["sbatch", "/home/user/proj/b.slurm", "--dependency=afterok:42"] :=
  c9_after_no_chain oracleChain "42" [pathA, pathB] 0
    ["sbatch", "/home/user/proj/b.slurm", "--dependency=afterok:42"] (by decide)

/-- C10: if the submit command succeeds on the k-th config but prints no
whitespace-delimited token, the unconditional job-id parse raises, the same
handler catches it, and the run exits fatally — chaining enabled or not —
with no config after the k-th submitted. -/
theorem c10_empty_stdout (o : Nat → Except String String) (chain : Bool)
    (a0 : Option String) (configs : List (List String)) (k : Nat) (s : String)
    (hk : k < configs.length)
    (hok : ∀ j, j < k → ∃ s2 t, o j = Except.ok s2 ∧ lastTokenOf s2 = some t)
    (hout : o k = Except.ok s) (hempty : lastTokenOf s = none) :
    (_submit o chain 0 a0 configs).exit = some indexErrorMsg ∧
    (_submit o chain 0 a0 configs).invocations.length = k + 1 := by
  obtain ⟨pre, after2, hlen, heq⟩ :=
    submit_reach o chain configs k 0 a0 hk (by simpa using hok)
  obtain ⟨c, rest, hdrop⟩ : ∃ c rest, configs.drop k = c :: rest := by
    cases hd : configs.drop k with
    | nil => exact absurd (List.drop_eq_nil_iff.mp hd) (by omega)
    | cons c rest => exact ⟨c, rest, rfl⟩
  rw [heq, hdrop]
  simp only [Nat.zero_add] at *
  simp [_submit, hout, hempty, hlen]

/-- C10 witness: the second submission succeeds with empty output and the run
aborts even though chaining is enabled. -/
theorem c10_empty_stdout_witness :
    (_submit oracleEmpty true 0 none [pathA, pathB, pathC]).exit = some indexErrorMsg ∧
    (_submit oracleEmpty true 0 none [pathA, pathB, pathC]).invocations.length = 2 :=
  c10_empty_stdout oracleEmpty true none [pathA, pathB, pathC] 1 "" (by decide)
    (fun j hj => by
      interval_cases j
      exact ⟨"Submitted batch job 7", "7", rfl, by decide⟩)
    rfl rfl

/-! ### Claim theorems: job-name derivation -/

/-- Ancestors that neither contain a `.git` marker nor equal home are walked
past without a result. -/
theorem relRootGo_append_skip (g : List String → Bool) (home p : List String)
    (pre l : List (List String))
    (h : ∀ q ∈ pre, g q = false ∧ q ≠ home) :
    relRootGo g home p (pre ++ l) = relRootGo g home p l := by
  induction pre with
  | nil => rfl
  | cons q pre ih =>
    have hq := h q (by simp)
    rw [List.cons_append]
    simp only [relRootGo, hq.1, Bool.false_eq_true, if_false, if_neg hq.2]
    exact ih (fun r hr => h r (by simp [hr]))

/-- A walk in which every ancestor fails both stopping conditions returns
nothing, as the Python loop falls through without a `return`. -/
theorem relRootGo_none (g : List String → Bool) (home p : List String)
    (l : List (List String))
    (h : ∀ q ∈ l, g q = false ∧ q ≠ home) :
    relRootGo g home p l = none := by
  have := relRootGo_append_skip g home p l [] h
  simpa using this

/-- C3: when the first ancestor (walking upward) that contains a `.git`
marker or equals home is a marker-containing directory, the job name is that
directory's name joined by underscores with the path's components relative to
it. -/
theorem c3_jobname_git_root (g : List String → Bool) (home p : List String)
    (pre rest : List (List String)) (parent : List String)
    (hsplit : parentsOf p = pre ++ parent :: rest)
    (hpre : ∀ q ∈ pre, g q = false ∧ q ≠ home)
    (hgit : g parent = true)
    (hname : nameOf parent ≠ "") :
    _jobname g home p =
      some (String.intercalate "_" (nameOf parent :: p.drop parent.length)) := by
  unfold _jobname _path_relative_to_root
  rw [hsplit, relRootGo_append_skip g home p pre _ hpre]
  simp [relRootGo, hgit, joinName, hname]

/-- C3 witness: `/home/user/proj/run1/input.conf` with the marker at
`/home/user/proj` and home `/home/user` yields `proj_run1_input.conf`. -/
theorem c3_jobname_git_root_witness :
    _jobname gitAtProj homeUser ["home", "user", "proj", "run1", "input.conf"] =
      some "proj_run1_input.conf" := by
  rw [c3_jobname_git_root gitAtProj homeUser
    ["home", "user", "proj", "run1", "input.conf"]
    [["home", "user", "proj", "run1"]] [["home", "user"], ["home"], []]
    ["home", "user", "proj"] (by decide) (by decide) (by decide) (by decide)]
  decide

/-- C8: when no ancestor contains a `.git` marker and none equals home,
`_path_relative_to_root` returns nothing, `_jobname` raises (modelled as
`none`), no script body is produced, and `_prep` stops after truncating the
target file, with the completion flag `false`. -/
theorem c8_no_root_found (g : List String → Bool) (home p : List String)
    (wall : String) (ncpus ngpus : Nat)
    (h : ∀ q ∈ parentsOf p, g q = false ∧ q ≠ home) :
    _path_relative_to_root g home p = none ∧
    _jobname g home p = none ∧
    prepScript g home wall ncpus ngpus p = none ∧
    prepRun g home wall ncpus ngpus [p] = ([Event.write (withSlurm p) []], false) := by
  have h1 : _path_relative_to_root g home p = none := relRootGo_none g home p _ h
  have h2 : _jobname g home p = none := by simp [_jobname, h1]
  exact ⟨h1, h2, by simp [prepScript, h2], by simp [prepRun, h2]⟩

/-- C8 witness: `/srv/data/x.conf` with no marker and home `/home/user`. -/
theorem c8_no_root_found_witness :
    _path_relative_to_root gitNowhere homeUser ["srv", "data", "x.conf"] = none ∧
    _jobname gitNowhere homeUser ["srv", "data", "x.conf"] = none ∧
    prepScript gitNowhere homeUser "12:00:00" 2 1 ["srv", "data", "x.conf"] = none ∧
    prepRun gitNowhere homeUser "12:00:00" 2 1 [["srv", "data", "x.conf"]] =
      ([Event.write ["srv", "data", "x.slurm"] []], false) := by
  have h := c8_no_root_found gitNowhere homeUser ["srv", "data", "x.conf"]
    "12:00:00" 2 1 (by decide)
  refine ⟨h.1, h.2.1, h.2.2.1, ?_⟩
  rw [h.2.2.2]
  decide

/-! ### Claim theorems: script generation -/

/-- C5: with `ngpus = 0` no line of the generated script is a GPU-count
scheduler directive and the engine invocation line is exactly the text
without a device-selection flag; with `ngpus > 0` the script contains the
GPU-count directive and the invocation line contains the device-selection
flag sourced from the `CUDA_VISIBLE_DEVICES` environment variable. -/
theorem c5_gpu_directives (jn wall : String) (ncpus ngpus : Nat) (nm stem : String) :
    (ngpus = 0 →
      (∀ l ∈ scriptLines jn wall ncpus ngpus nm stem, isGpuDirective l = false) ∧
      invocationLine ncpus ngpus nm stem =
        "namd3 +p " ++ toString ncpus ++ " +setcpuaffinity" ++ " " ++ nm
          ++ " > " ++ stem ++ ".out\n") ∧
    (0 < ngpus →
      gpuDirective ngpus ∈ scriptLines jn wall ncpus ngpus nm stem ∧
      ∃ u v, u ++ devicesFlag.data ++ v = (invocationLine ncpus ngpus nm stem).data) := by
  constructor
  · intro h0
    subst h0
    refine ⟨?_, by simp [invocationLine]⟩
    intro l hl
    have hs : scriptLines jn wall ncpus 0 nm stem =
        ["#!/bin/bash\n", "\n", "#SBATCH --job-name=" ++ jn ++ "\n",
         "#SBATCH --time=" ++ wall ++ "\n", "#SBATCH --nodes=1\n",
         "#SBATCH --ntasks-per-node=" ++ toString ncpus ++ "\n",
         "\n", "module purge\n", "module load namd3\n", "\n",
         invocationLine ncpus 0 nm stem] := by simp [scriptLines]
    rw [hs] at hl
    fin_cases hl <;> rfl
  · intro hpos
    constructor
    · simp [scriptLines, hpos, gpuDirective]
    · refine ⟨("namd3 +p " ++ toString ncpus ++ " +setcpuaffinity").data,
        (" " ++ nm ++ " > " ++ stem ++ ".out\n").data, ?_⟩
      simp [invocationLine, hpos, String.data_append]

/-- C5 witness: concrete scripts with `ngpus = 0` and `ngpus = 1`. -/
theorem c5_gpu_directives_witness :
    isGpuDirective (invocationLine 2 0 "a.conf" "a") = false ∧
    gpuDirective 1 ∈ scriptLines "job" "12:00:00" 2 1 "a.conf" "a" :=
  ⟨((c5_gpu_directives "job" "12:00:00" 2 0 "a.conf" "a").1 rfl).1 _ (by decide),
   ((c5_gpu_directives "job" "12:00:00" 2 1 "a.conf" "a").2 (by decide)).1⟩

/-- Every effect of `_prep` is a file write. -/
theorem prepRun_all_writes (g : List String → Bool) (home : List String)
    (wall : String) (ncpus ngpus : Nat) :
    ∀ configs, ∀ e ∈ (prepRun g home wall ncpus ngpus configs).1, e.isWrite = true := by
  intro configs
  induction configs with
  | nil => intro e he; simp [prepRun] at he
  | cons c rest ih =>
    intro e he
    cases hj : _jobname g home c with
    | none =>
      simp [prepRun, hj] at he
      simp [he, Event.isWrite]
    | some jn =>
      simp only [prepRun, hj, List.mem_cons] at he
      rcases he with rfl | he
      · rfl
      · exact ih e he

/-- C6: with `--dry-run` the run writes exactly the scripts a normal run
writes, and performs no effect other than writes — in particular the
external submit command is never invoked. -/
theorem c6_dry_run (g : List String → Bool) (home : List String) (wall : String)
    (ncpus ngpus : Nat) (o : Nat → Except String String) (after : Option String)
    (chain : Bool) (configs : List (List String)) :
    (mainRun g home wall ncpus ngpus o after chain true configs).filter Event.isWrite =
      (mainRun g home wall ncpus ngpus o after chain false configs).filter Event.isWrite ∧
    ∀ e ∈ mainRun g home wall ncpus ngpus o after chain true configs,
      e.isWrite = true := by
  have hwrites := prepRun_all_writes g home wall ncpus ngpus configs
  have hfilter :
      (prepRun g home wall ncpus ngpus configs).1.filter Event.isWrite =
        (prepRun g home wall ncpus ngpus configs).1 :=
    List.filter_eq_self.mpr hwrites
  have hinv : ∀ l : List (List String),
      (l.map Event.invoke).filter Event.isWrite = [] := by
    intro l
    induction l with
    | nil => rfl
    | cons x xs ih => simp [Event.isWrite, ih]
  constructor
  · cases hp : (prepRun g home wall ncpus ngpus configs).2 with
    | false => simp [mainRun, hp]
    | true =>
      simp only [mainRun, hp, Bool.not_true, Bool.and_false, Bool.not_false,
        Bool.and_true, if_false, if_true, List.append_nil, List.filter_append,
        hinv]
      simp
  · intro e he
    have : mainRun g home wall ncpus ngpus o after chain true configs =
        (prepRun g home wall ncpus ngpus configs).1 := by
      simp [mainRun]
    rw [this] at he
    exact hwrites e he

/-- C6 witness: a concrete dry run over one config. -/
theorem c6_dry_run_witness :
    (mainRun gitAtProj homeUser "12:00:00" 2 1 oracleChain none false true
        [pathA]).filter Event.isWrite =
      (mainRun gitAtProj homeUser "12:00:00" 2 1 oracleChain none false false
        [pathA]).filter Event.isWrite ∧
    Event.isWrite (Event.write ["home", "user", "proj", "a.slurm"]
      (scriptLines "proj_a.conf" "12:00:00" 2 1 "a.conf" "a")) = true :=
  ⟨(c6_dry_run gitAtProj homeUser "12:00:00" 2 1 oracleChain none false [pathA]).1,
   (c6_dry_run gitAtProj homeUser "12:00:00" 2 1 oracleChain none false [pathA]).2
     _ (by decide)⟩

/-- `revDotIdx` finds the dot of a `".slurm"` tail after five steps, whatever
follows. -/
theorem revDotIdx_slurm_rev (x : List Char) :
    revDotIdx ('m' :: 'r' :: 'u' :: 'l' :: 's' :: '.' :: x) = some 5 := by
  simp [revDotIdx]

/-- `rfind('.')` on `name + ".slurm"` lands on the appended dot. -/
theorem lastDotIdx_concat_slurm (s : List Char) :
    lastDotIdx (s ++ ('.' :: 's' :: 'l' :: 'u' :: 'r' :: 'm' :: [])) = some s.length := by
  unfold lastDotIdx
  rw [List.reverse_append]
  have h1 : ('.' :: 's' :: 'l' :: 'u' :: 'r' :: 'm' :: ([] : List Char)).reverse ++ s.reverse =
      'm' :: 'r' :: 'u' :: 'l' :: 's' :: '.' :: s.reverse := rfl
  rw [h1, revDotIdx_slurm_rev]
  simp

/-- A nonempty file name has a nonempty stem. -/
theorem pyStem_ne_empty (n : String) (hn : n ≠ "") : pyStem n ≠ "" := by
  unfold pyStem
  cases h : lastDotIdx n.data with
  | none => exact hn
  | some i =>
    by_cases hc : 0 < i ∧ i + 1 < n.data.length
    · simp only [hc, and_self, if_true]
      intro hcontra
      have hd : n.data.take i = [] := congrArg String.data hcontra
      rcases List.take_eq_nil_iff.mp hd with h0 | h0
      · omega
      · exact hn (by cases n; simp at h0; simp [h0])
    · simp only [hc, and_false, false_and, if_false]
      exact hn

/-- Appending `".slurm"` to a nonempty name gives that name back as the stem
and `".slurm"` as the suffix. -/
theorem pyStem_append_slurm (m : String) (hne : m ≠ "") :
    pyStem (m ++ ".slurm") = m ∧ pySuffix (m ++ ".slurm") = ".slurm" := by
  have hlen : 0 < m.data.length := by
    cases hm : m.data with
    | nil => exact absurd (by cases m; simp_all) hne
    | cons a l => simp
  have hdata : (m ++ ".slurm").data =
      m.data ++ ('.' :: 's' :: 'l' :: 'u' :: 'r' :: 'm' :: []) := by
    rw [String.data_append]
  have hidx : lastDotIdx (m ++ ".slurm").data = some m.data.length := by
    rw [hdata]; exact lastDotIdx_concat_slurm m.data
  have hcond : 0 < m.data.length ∧ m.data.length + 1 < (m ++ ".slurm").data.length := by
    rw [hdata]; simp only [List.length_append, List.length_cons, List.length_nil]; omega
  constructor
  · unfold pyStem
    simp only [hidx, hcond, and_self, if_true]
    rw [hdata, List.take_left]
  · unfold pySuffix
    simp only [hidx, hcond, and_self, if_true]
    rw [hdata, List.drop_left]

theorem withSlurm_dropLast (c : List String) :
    (withSlurm c).dropLast = c.dropLast := by
  simp [withSlurm]

theorem nameOf_withSlurm (c : List String) :
    nameOf (withSlurm c) = pyStem (nameOf c) ++ ".slurm" := by
  simp [withSlurm, nameOf]

theorem string_append_right_cancel (a b t : String) (h : a ++ t = b ++ t) : a = b := by
  have hd : a.data ++ t.data = b.data ++ t.data := by
    rw [← String.data_append, ← String.data_append, h]
  have := List.append_cancel_right hd
  cases a; cases b; simp_all

/-- C7: each config's generated script is the unique element of the script
list that shares the config's parent directory and stem; its suffix is
`".slurm"`; and configs with distinct stems get distinct scripts. -/
theorem c7_script_per_config (configs : List (List String))
    (hn : ∀ c ∈ configs, nameOf c ≠ "") :
    (∀ c ∈ configs,
      withSlurm c ∈ configs.map withSlurm ∧
      pySuffix (nameOf (withSlurm c)) = ".slurm" ∧
      (∀ s ∈ configs.map withSlurm,
        (s.dropLast = c.dropLast ∧ pyStem (nameOf s) = pyStem (nameOf c)) ↔
          s = withSlurm c)) ∧
    (∀ c ∈ configs, ∀ c2 ∈ configs,
      pyStem (nameOf c) ≠ pyStem (nameOf c2) → withSlurm c ≠ withSlurm c2) := by
  constructor
  · intro c hc
    refine ⟨List.mem_map_of_mem withSlurm hc, ?_, ?_⟩
    · rw [nameOf_withSlurm]
      exact (pyStem_append_slurm (pyStem (nameOf c)) (pyStem_ne_empty _ (hn c hc))).2
    · intro s hs
      obtain ⟨c2, hc2, rfl⟩ := List.mem_map.mp hs
      have hstem2 : pyStem (nameOf (withSlurm c2)) = pyStem (nameOf c2) := by
        rw [nameOf_withSlurm]
        exact (pyStem_append_slurm (pyStem (nameOf c2)) (pyStem_ne_empty _ (hn c2 hc2))).1
      constructor
      · rintro ⟨hpar, hst⟩
        rw [withSlurm_dropLast] at hpar
        rw [hstem2] at hst
        show c2.dropLast ++ _ = c.dropLast ++ _
        rw [hpar, hst]
      · rintro heq
        rw [heq, withSlurm_dropLast]
        have hstem1 : pyStem (nameOf (withSlurm c)) = pyStem (nameOf c) := by
          rw [nameOf_withSlurm]
          exact (pyStem_append_slurm (pyStem (nameOf c)) (pyStem_ne_empty _ (hn c hc))).1
        exact ⟨rfl, hstem1⟩
  · intro c hc c2 hc2 hne heq
    have hname : pyStem (nameOf c) ++ ".slurm" = pyStem (nameOf c2) ++ ".slurm" := by
      rw [← nameOf_withSlurm, ← nameOf_withSlurm, heq]
    exact hne (string_append_right_cancel _ _ _ hname)

/-- C7 witness: two concrete configs in the same directory. -/
theorem c7_script_per_config_witness :
    withSlurm pathA ∈ [pathA, pathB].map withSlurm ∧
    pySuffix (nameOf (withSlurm pathA)) = ".slurm" ∧
    withSlurm pathA ≠ withSlurm pathB := by
  have h := c7_script_per_config [pathA, pathB] (by decide)
  exact ⟨(h.1 pathA (by decide)).1, (h.1 pathA (by decide)).2.1,
    h.2 pathA (by decide) pathB (by decide) (by decide)⟩


/-! ### Claim theorems: wall-time validator -/

theorem digits1_iff (dig : Char → Bool) (cs : List Char) :
    digits1 dig cs = true ↔ IsDigits dig cs := by
  simp [digits1, IsDigits, List.all_eq_true, List.isEmpty_iff]

theorem optD_iff (dig : Char → Bool) (cs : List Char) :
    optPart (digits1 dig) cs = true ↔ DaysOpt dig cs := by
  simp [optPart, DaysOpt, List.isEmpty_iff, digits1_iff]

theorem secsTok_iff (dig : Char → Bool) (cs : List Char) :
    secsTok dig cs = true ↔ ∃ mid, cs = ':' :: mid ∧ IsDigits dig mid := by
  unfold secsTok
  constructor
  · intro h
    by_cases hh : cs.head? = some ':'
    · rw [if_pos hh] at h
      cases cs with
      | nil => simp at hh
      | cons a t =>
        simp only [List.head?_cons, Option.some.injEq] at hh
        exact ⟨t, by rw [hh], (digits1_iff dig t).mp h⟩
    · rw [if_neg hh] at h
      exact absurd h (by simp)
  · rintro ⟨mid, rfl, hmid⟩
    rw [if_pos (by simp)]
    exact (digits1_iff dig mid).mpr hmid

theorem optS_iff (dig : Char → Bool) (cs : List Char) :
    optPart (secsTok dig) cs = true ↔ SecsOpt dig cs := by
  simp [optPart, SecsOpt, List.isEmpty_iff, secsTok_iff]

/-- A digit run followed by anything cannot start with a dash, since `-` is
not a digit. -/
theorem head_not_dash_of_digits (dig : Char → Bool) (hdash : dig '-' = false)
    (mid : List Char) (h : IsDigits dig mid) (post : List Char) :
    ¬ (mid ++ post).head? = some '-' := by
  obtain ⟨hne, hdig⟩ := h
  cases mid with
  | nil => exact absurd rfl hne
  | cons m ms =>
    simp only [List.cons_append, List.head?_cons, Option.some.injEq]
    intro hm
    have hd := hdig m (by simp)
    rw [hm, hdash] at hd
    exact Bool.false_ne_true hd

/-- A digit run cannot end with a colon, since `:` is not a digit. -/
theorem getLast_not_colon_of_digits (dig : Char → Bool) (hcolon : dig ':' = false)
    (mid : List Char) (h : IsDigits dig mid) :
    ¬ mid.getLast? = some ':' := by
  obtain ⟨hne, hdig⟩ := h
  intro hl
  rw [List.getLast?_eq_getLast mid hne] at hl
  have hmem := List.getLast_mem hne
  have hd := hdig _ hmem
  rw [Option.some.injEq] at hl
  rw [hl, hcolon] at hd
  exact Bool.false_ne_true hd

/-- The hours token `-?\d+:?` in terms of an explicit decomposition. -/
theorem hoursTok_iff (dig : Char → Bool) (hcolon : dig ':' = false)
    (hdash : dig '-' = false) (cs : List Char) :
    hoursTok dig cs = true ↔ ∃ pre mid post, cs = pre ++ mid ++ post ∧
      (pre = [] ∨ pre = ['-']) ∧ IsDigits dig mid ∧ (post = [] ∨ post = [':']) := by
  unfold hoursTok
  constructor
  · intro h
    obtain ⟨u, hu, hcs⟩ :
        ∃ u, digits1 dig (stripColonEnd u) = true ∧
          ((cs = u ∧ ¬ cs.head? = some '-') ∨ cs = '-' :: u) := by
      unfold stripDash at h
      by_cases hh : cs.head? = some '-'
      · rw [if_pos hh] at h
        cases cs with
        | nil => simp at hh
        | cons a t =>
          simp only [List.head?_cons, Option.some.injEq] at hh
          exact ⟨t, h, Or.inr (by rw [hh])⟩
      · rw [if_neg hh] at h
        exact ⟨cs, h, Or.inl ⟨rfl, hh⟩⟩
    obtain ⟨mid, hmid, hu2⟩ :
        ∃ mid, IsDigits dig mid ∧ (u = mid ∨ u = mid ++ [':']) := by
      unfold stripColonEnd at hu
      by_cases hl : u.getLast? = some ':'
      · rw [if_pos hl] at hu
        have hune : u ≠ [] := by rintro rfl; simp at hl
        refine ⟨u.dropLast, (digits1_iff dig _).mp hu, Or.inr ?_⟩
        have h2 := List.dropLast_append_getLast hune
        rw [List.getLast?_eq_getLast u hune, Option.some.injEq] at hl
        rw [hl] at h2
        exact h2.symm
      · rw [if_neg hl] at hu
        exact ⟨u, (digits1_iff dig _).mp hu, Or.inl rfl⟩
    rcases hcs with ⟨h1, hnd⟩ | h1
    · rcases hu2 with h2 | h2
      · exact ⟨[], mid, [], by rw [h1, h2]; simp, Or.inl rfl, hmid, Or.inl rfl⟩
      · exact ⟨[], mid, [':'], by rw [h1, h2]; simp, Or.inl rfl, hmid, Or.inr rfl⟩
    · rcases hu2 with h2 | h2
      · exact ⟨['-'], mid, [], by rw [h1, h2]; simp, Or.inr rfl, hmid, Or.inl rfl⟩
      · exact ⟨['-'], mid, [':'], by rw [h1, h2]; simp, Or.inr rfl, hmid, Or.inr rfl⟩
  · rintro ⟨pre, mid, post, rfl, hpre, hmid, hpost⟩
    have hstrip : stripDash (pre ++ mid ++ post) = mid ++ post := by
      rcases hpre with rfl | rfl
      · simp only [List.nil_append]
        unfold stripDash
        rw [if_neg (head_not_dash_of_digits dig hdash mid hmid post)]
      · unfold stripDash
        simp
    rw [hstrip]
    have hstrip2 : stripColonEnd (mid ++ post) = mid := by
      rcases hpost with rfl | rfl
      · unfold stripColonEnd
        rw [List.append_nil, if_neg (getLast_not_colon_of_digits dig hcolon mid hmid)]
      · unfold stripColonEnd
        rw [if_pos (by rw [List.getLast?_concat]), List.dropLast_concat]
    rw [hstrip2]
    exact (digits1_iff dig mid).mpr hmid

theorem optH_iff (dig : Char → Bool) (hcolon : dig ':' = false)
    (hdash : dig '-' = false) (cs : List Char) :
    optPart (hoursTok dig) cs = true ↔ HoursOpt dig cs := by
  simp [optPart, HoursOpt, List.isEmpty_iff, hoursTok_iff dig hcolon hdash]

/-- The split enumeration is complete: the `any` over `splitsAt` holds
exactly when some two-piece decomposition satisfies the predicate. -/
theorem any_splitsAt_iff (cs : List Char) (p : List Char × List Char → Bool) :
    (splitsAt cs).any p = true ↔ ∃ a b, cs = a ++ b ∧ p (a, b) = true := by
  rw [List.any_eq_true]
  constructor
  · rintro ⟨x, hx, hp⟩
    rw [splitsAt, List.mem_map] at hx
    obtain ⟨i, hi, rfl⟩ := hx
    exact ⟨cs.take i, cs.drop i, (List.take_append_drop i cs).symm, hp⟩
  · rintro ⟨a, b, rfl, hp⟩
    refine ⟨(a, b), ?_, hp⟩
    rw [splitsAt, List.mem_map]
    refine ⟨a.length, ?_, ?_⟩
    · rw [List.mem_range, List.length_append]; omega
    · rw [List.take_left, List.drop_left]

/-- The regex body decides exactly the four-part grammar with the colon
after the hours component optional. -/
theorem wallTimeBody_iff (dig : Char → Bool) (hcolon : dig ':' = false)
    (hdash : dig '-' = false) (cs : List Char) :
    wallTimeBody dig cs = true ↔ BodyGrammar dig cs := by
  unfold wallTimeBody BodyGrammar
  simp only [any_splitsAt_iff, Bool.and_eq_true, optD_iff,
    optH_iff dig hcolon hdash, optS_iff]
  constructor
  · rintro ⟨d, r1, hcs, hd, h2, r2, hr1, hh, m, t, hr2, hm, ht⟩
    exact ⟨d, h2, m, t, by rw [hcs, hr1, hr2], hd, hh, hm, ht⟩
  · rintro ⟨d, h2, m, t, hcs, hd, hh, hm, ht⟩
    exact ⟨d, h2 ++ (m ++ t), hcs, hd, h2, m ++ t, rfl, hh, m, t, rfl, hm, ht⟩

/-- The full match — `$` tolerating one trailing newline — decides exactly
the amended grammar. -/
theorem wallTimeMatch_iff (dig : Char → Bool) (hcolon : dig ':' = false)
    (hdash : dig '-' = false) (s : String) :
    wallTimeMatch dig s = true ↔ AmendedWallTimeGrammar dig s := by
  unfold wallTimeMatch AmendedWallTimeGrammar
  rw [Bool.or_eq_true, Bool.and_eq_true]
  constructor
  · rintro (hb | ⟨hnl, hb⟩)
    · exact ⟨s.data, Or.inl rfl, (wallTimeBody_iff dig hcolon hdash _).mp hb⟩
    · have hl : s.data.getLast? = some '\n' := by simpa using hnl
      have hne : s.data ≠ [] := by rintro h0; rw [h0] at hl; simp at hl
      refine ⟨s.data.dropLast, Or.inr ?_, (wallTimeBody_iff dig hcolon hdash _).mp hb⟩
      have h2 := List.dropLast_append_getLast hne
      rw [List.getLast?_eq_getLast _ hne, Option.some.injEq] at hl
      rw [hl] at h2
      exact h2.symm
  · rintro ⟨w, hw | hw, hbody⟩
    · exact Or.inl (by rw [hw]; exact (wallTimeBody_iff dig hcolon hdash _).mpr hbody)
    · refine Or.inr ⟨?_, ?_⟩
      · rw [hw]; simp [List.getLast?_concat]
      · rw [hw, List.dropLast_concat]
        exact (wallTimeBody_iff dig hcolon hdash _).mpr hbody

/-- Every character of a body-grammar match is a digit, a colon or a dash. -/
theorem char_class_of_body (dig : Char → Bool) (cs : List Char)
    (h : BodyGrammar dig cs) :
    ∀ c ∈ cs, dig c = true ∨ c = ':' ∨ c = '-' := by
  obtain ⟨d, hh, m, t, heq, hd, hhrs, hm, ht⟩ := h
  intro c hc
  rw [heq] at hc
  simp only [List.mem_append] at hc
  have digitsCase : ∀ u : List Char, DaysOpt dig u → c ∈ u →
      dig c = true ∨ c = ':' ∨ c = '-' := by
    rintro u (rfl | ⟨_, hdig⟩) hcu
    · simp at hcu
    · exact Or.inl (hdig c hcu)
  rcases hc with hc | hc | hc | hc
  · exact digitsCase d hd hc
  · rcases hhrs with rfl | ⟨pre, mid, post, rfl, hpre, hmid, hpost⟩
    · simp at hc
    · simp only [List.append_assoc, List.mem_append] at hc
      rcases hc with hc | hc | hc
      · rcases hpre with rfl | rfl
        · simp at hc
        · simp only [List.mem_singleton] at hc
          exact Or.inr (Or.inr hc)
      · exact Or.inl (hmid.2 c hc)
      · rcases hpost with rfl | rfl
        · simp at hc
        · simp only [List.mem_singleton] at hc
          exact Or.inr (Or.inl hc)
  · exact digitsCase m hm hc
  · rcases ht with rfl | ⟨mid, rfl, hmid⟩
    · simp at hc
    · simp only [List.mem_cons] at hc
      rcases hc with rfl | hc
      · exact Or.inr (Or.inl rfl)
      · exact Or.inl (hmid.2 c hc)

/-! Congruence: the matchers evaluate the digit predicate only on characters
of the input, so any two digit tables agreeing on the input's characters —
in particular `Char.isDigit` and any Unicode Nd table, on an ASCII-only
string — give the same verdict. -/

theorem all_congr_on (d1 d2 : Char → Bool) :
    ∀ cs : List Char, (∀ c ∈ cs, d1 c = d2 c) → cs.all d1 = cs.all d2 := by
  intro cs h
  induction cs with
  | nil => rfl
  | cons a t ih =>
    simp only [List.all_cons]
    rw [h a (by simp), ih (fun c hc => h c (by simp [hc]))]

theorem digits1_congr (d1 d2 : Char → Bool) (cs : List Char)
    (h : ∀ c ∈ cs, d1 c = d2 c) : digits1 d1 cs = digits1 d2 cs := by
  unfold digits1
  rw [all_congr_on d1 d2 cs h]

theorem stripDash_subset (cs : List Char) : stripDash cs ⊆ cs := by
  unfold stripDash
  split
  · exact List.tail_subset cs
  · exact List.Subset.refl cs

theorem stripColonEnd_subset (cs : List Char) : stripColonEnd cs ⊆ cs := by
  unfold stripColonEnd
  split
  · exact List.dropLast_subset cs
  · exact List.Subset.refl cs

theorem hoursTok_congr (d1 d2 : Char → Bool) (cs : List Char)
    (h : ∀ c ∈ cs, d1 c = d2 c) : hoursTok d1 cs = hoursTok d2 cs := by
  unfold hoursTok
  exact digits1_congr d1 d2 _
    (fun c hc => h c (stripDash_subset cs (stripColonEnd_subset (stripDash cs) hc)))

theorem secsTok_congr (d1 d2 : Char → Bool) (cs : List Char)
    (h : ∀ c ∈ cs, d1 c = d2 c) : secsTok d1 cs = secsTok d2 cs := by
  unfold secsTok
  split
  · exact digits1_congr d1 d2 _ (fun c hc => h c (List.tail_subset cs hc))
  · rfl

theorem optPart_congr (f1 f2 : List Char → Bool) (cs : List Char)
    (h : f1 cs = f2 cs) : optPart f1 cs = optPart f2 cs := by
  unfold optPart
  rw [h]

theorem any_congr_on (p q : List Char × List Char → Bool) :
    ∀ l : List (List Char × List Char), (∀ x ∈ l, p x = q x) → l.any p = l.any q := by
  intro l h
  induction l with
  | nil => rfl
  | cons a t ih =>
    simp only [List.any_cons]
    rw [h a (by simp), ih (fun x hx => h x (by simp [hx]))]

theorem splitsAt_parts_subset (cs : List Char) (x : List Char × List Char)
    (hx : x ∈ splitsAt cs) : x.1 ⊆ cs ∧ x.2 ⊆ cs := by
  rw [splitsAt, List.mem_map] at hx
  obtain ⟨i, _, rfl⟩ := hx
  exact ⟨List.take_subset i cs, List.drop_subset i cs⟩

theorem wallTimeBody_congr (d1 d2 : Char → Bool) (cs : List Char)
    (h : ∀ c ∈ cs, d1 c = d2 c) : wallTimeBody d1 cs = wallTimeBody d2 cs := by
  unfold wallTimeBody
  apply any_congr_on
  intro dq hdq
  obtain ⟨hdq1, hdq2⟩ := splitsAt_parts_subset cs dq hdq
  have e1 := optPart_congr _ _ dq.1 (digits1_congr d1 d2 dq.1 (fun c hc => h c (hdq1 hc)))
  rw [e1]
  have e2 : ∀ hq ∈ splitsAt dq.2,
      (optPart (hoursTok d1) hq.1 &&
        ((splitsAt hq.2).any fun mq =>
          optPart (digits1 d1) mq.1 && optPart (secsTok d1) mq.2)) =
      (optPart (hoursTok d2) hq.1 &&
        ((splitsAt hq.2).any fun mq =>
          optPart (digits1 d2) mq.1 && optPart (secsTok d2) mq.2)) := by
    intro hq hhq
    obtain ⟨hhq1, hhq2⟩ := splitsAt_parts_subset dq.2 hq hhq
    have e3 := optPart_congr _ _ hq.1
      (hoursTok_congr d1 d2 hq.1 (fun c hc => h c (hdq2 (hhq1 hc))))
    rw [e3]
    have e4 : ∀ mq ∈ splitsAt hq.2,
        (optPart (digits1 d1) mq.1 && optPart (secsTok d1) mq.2) =
        (optPart (digits1 d2) mq.1 && optPart (secsTok d2) mq.2) := by
      intro mq hmq
      obtain ⟨hmq1, hmq2⟩ := splitsAt_parts_subset hq.2 mq hmq
      rw [optPart_congr _ _ mq.1
          (digits1_congr d1 d2 mq.1 (fun c hc => h c (hdq2 (hhq2 (hmq1 hc))))),
        optPart_congr _ _ mq.2
          (secsTok_congr d1 d2 mq.2 (fun c hc => h c (hdq2 (hhq2 (hmq2 hc)))))]
    rw [any_congr_on _ _ _ e4]
  rw [any_congr_on _ _ _ e2]

theorem wallTimeMatch_congr (d1 d2 : Char → Bool) (s : String)
    (h : ∀ c ∈ s.data, d1 c = d2 c) : wallTimeMatch d1 s = wallTimeMatch d2 s := by
  unfold wallTimeMatch
  rw [wallTimeBody_congr d1 d2 s.data h,
    wallTimeBody_congr d1 d2 s.data.dropLast
      (fun c hc => h c (List.dropLast_subset s.data hc))]

theorem specWallTimeMatch_congr (d1 d2 : Char → Bool) (s : String)
    (h : ∀ c ∈ s.data, d1 c = d2 c) :
    specWallTimeMatch d1 s = specWallTimeMatch d2 s := by
  unfold specWallTimeMatch
  apply any_congr_on
  intro dq hdq
  obtain ⟨hdq1, hdq2⟩ := splitsAt_parts_subset s.data dq hdq
  rw [optPart_congr _ _ dq.1 (digits1_congr d1 d2 dq.1 (fun c hc => h c (hdq1 hc)))]
  have e2 : ∀ hq ∈ splitsAt dq.2,
      (optPart (hoursTokSpec d1) hq.1 &&
        ((splitsAt hq.2).any fun mq =>
          optPart (digits1 d1) mq.1 && optPart (secsTok d1) mq.2)) =
      (optPart (hoursTokSpec d2) hq.1 &&
        ((splitsAt hq.2).any fun mq =>
          optPart (digits1 d2) mq.1 && optPart (secsTok d2) mq.2)) := by
    intro hq hhq
    obtain ⟨hhq1, hhq2⟩ := splitsAt_parts_subset dq.2 hq hhq
    have e3 : hoursTokSpec d1 hq.1 = hoursTokSpec d2 hq.1 := by
      unfold hoursTokSpec
      rw [digits1_congr d1 d2 (stripDash hq.1).dropLast
        (fun c hc => h c (hdq2 (hhq1 (stripDash_subset hq.1 (List.dropLast_subset _ hc)))))]
    rw [optPart_congr _ _ hq.1 e3]
    have e4 : ∀ mq ∈ splitsAt hq.2,
        (optPart (digits1 d1) mq.1 && optPart (secsTok d1) mq.2) =
        (optPart (digits1 d2) mq.1 && optPart (secsTok d2) mq.2) := by
      intro mq hmq
      obtain ⟨hmq1, hmq2⟩ := splitsAt_parts_subset hq.2 mq hmq
      rw [optPart_congr _ _ mq.1
          (digits1_congr d1 d2 mq.1 (fun c hc => h c (hdq2 (hhq2 (hmq1 hc))))),
        optPart_congr _ _ mq.2
          (secsTok_congr d1 d2 mq.2 (fun c hc => h c (hdq2 (hhq2 (hmq2 hc)))))]
    rw [any_congr_on _ _ _ e4]
  rw [any_congr_on _ _ _ e2]

/-- C4 counterexample: the claim's iff fails on the real validator in both
directions that matter.  The code accepts `"1-2"` (the regex hours group
`-?\d+:?` has an optional colon) while the grammar
`[days][[-]hours:][minutes][:seconds]` as the claim states it has no parse
for `"1-2"`; and the code accepts `"12\n"` (`$` matches before a trailing
newline) although `'\n'` is neither digit, colon nor hyphen, so the claim
says it must be rejected.  Both strings are ASCII, on which `Char.isDigit`
agrees with every Unicode Nd table (`wallTimeMatch_congr`,
`specWallTimeMatch_congr`), so the instantiation is faithful here. -/
theorem c4_walltime_counterexample :
    WallTimeParamType_convert Char.isDigit "1-2" = Except.ok "1-2" ∧
    specWallTimeMatch Char.isDigit "1-2" = false ∧
    WallTimeParamType_convert Char.isDigit "12\n" = Except.ok "12\n" ∧
    specWallTimeMatch Char.isDigit "12\n" = false :=
  ⟨rfl, by decide, rfl, by decide⟩

/-- C4 (amended): for any digit set containing none of `:`, `-`, `\n` — as
Python's `\d` (Unicode category Nd) does in every Unicode version — the
validator accepts the empty string; it accepts exactly the strings that,
possibly after dropping one trailing newline, match the grammar
`[days][[-]hours[:]][minutes][:seconds]` with each component one or more
`\d` digits and the colon after the hours component optional; and it
rejects, with a validation error carrying the offending value, every string
containing a character that is not a `\d` digit, a colon, a hyphen or a
newline. -/
theorem c4_walltime_amended (dig : Char → Bool) (hcolon : dig ':' = false)
    (hdash : dig '-' = false) :
    WallTimeParamType_convert dig "" = Except.ok "" ∧
    (∀ s : String,
      WallTimeParamType_convert dig s = Except.ok s ↔ AmendedWallTimeGrammar dig s) ∧
    (∀ (s : String) (c : Char), c ∈ s.data → dig c = false →
      c ≠ ':' → c ≠ '-' → c ≠ '\n' →
      WallTimeParamType_convert dig s = Except.error (s ++ " is not a valid walltime")) := by
  refine ⟨rfl, ?_, ?_⟩
  · intro s
    unfold WallTimeParamType_convert
    by_cases h : wallTimeMatch dig s = true
    · rw [if_pos h]
      exact ⟨fun _ => (wallTimeMatch_iff dig hcolon hdash s).mp h, fun _ => rfl⟩
    · have hng : ¬ AmendedWallTimeGrammar dig s :=
        fun hg => h ((wallTimeMatch_iff dig hcolon hdash s).mpr hg)
      simp [h, hng]
  · intro s c hc hdig hc1 hc2 hc3
    have hng : ¬ wallTimeMatch dig s = true := by
      intro hm
      obtain ⟨w, hw, hbody⟩ := (wallTimeMatch_iff dig hcolon hdash s).mp hm
      have hcw : c ∈ w ∨ c = '\n' := by
        rcases hw with hw | hw
        · rw [hw] at hc; exact Or.inl hc
        · rw [hw] at hc
          simp only [List.mem_append, List.mem_singleton] at hc
          exact hc
      rcases hcw with hcw | rfl
      · rcases char_class_of_body dig w hbody c hcw with h1 | h1 | h1
        · rw [hdig] at h1; exact Bool.false_ne_true h1
        · exact hc1 h1
        · exact hc2 h1
      · exact hc3 rfl
    unfold WallTimeParamType_convert
    rw [if_neg hng]

/-- C4 witness: with the ASCII digits (agreeing with `\d` on these strings),
`"12:00:00"` and the trailing-newline `"12\n"` are in the accepted grammar,
and `"abc"` is rejected with the validation message. -/
theorem c4_walltime_amended_witness :
    AmendedWallTimeGrammar Char.isDigit "12:00:00" ∧
    AmendedWallTimeGrammar Char.isDigit "12\n" ∧
    WallTimeParamType_convert Char.isDigit "abc" =
      Except.error ("abc" ++ " is not a valid walltime") :=
  ⟨((c4_walltime_amended Char.isDigit rfl rfl).2.1 "12:00:00").mp rfl,
   ((c4_walltime_amended Char.isDigit rfl rfl).2.1 "12\n").mp rfl,
   (c4_walltime_amended Char.isDigit rfl rfl).2.2 "abc" 'b' (by decide) (by decide)
     (by decide) (by decide) (by decide)⟩
